import Mathlib

/-!
Shallow embedding of the `mcp-add` CLI's client-adapter and merge-write engine.

The JavaScript source persists one generic MCP server descriptor into the
config files of several client applications.  Each adapter follows the same
pipeline: resolve path, read existing config (fail-open), transform the
descriptor into the client's entry shape, upsert it under the server name in
the client's container, and write the file back.

Modelling conventions:
* JSON/YAML/TOML documents are the inductive `Json` tree below; documents are
  modelled as their on-disk image (what `JSON.stringify`/`YAML.stringify`
  would write), so a property assigned to an array value is dropped, matching
  `JSON.stringify` which ignores non-index properties of arrays.
* JavaScript property values distinguish `undefined` from JSON values via
  `JsValue`; `JSON.stringify` drops object properties whose value is
  `undefined` (`jsonOfEntry`).
* External parsers (`JSON.parse`, `YAML.parse`, `TOML.parse`, `jsonc.parse`)
  are not re-implemented; their outcome on the file is an input
  (`ParseResult`): file missing, parser threw, or parser returned a value.
* Code that can throw (`try`/`catch` in every `add_to_*`) is embedded in
  `Except String`; the catch-all boundary of each adapter is `to_result`.
* JavaScript objects are insertion-ordered: assignment `obj[k] = v` replaces
  the value of an existing key in place and appends a new key at the end
  (`objSet`); module code runs in strict mode, so property assignment on a
  primitive throws a `TypeError`.
-/

namespace McpAdd

/-- JSON-like structured value (also the shape of parsed YAML/TOML documents).
Objects are insertion-ordered association lists, as in JavaScript. -/
inductive Json where
  | null : Json
  | bool (b : Bool) : Json
  | num (n : Int) : Json
  | str (s : String) : Json
  | arr (elems : List Json) : Json
  | obj (fields : List (String × Json)) : Json

/-- A JavaScript expression value: either `undefined` or a JSON value. -/
inductive JsValue where
  | undef : JsValue
  | val (j : Json) : JsValue

/-- JavaScript falsiness of a JSON value (`!x` is true): `null`, `false`,
`0`, and `""` are falsy; arrays and objects (even empty) are truthy. -/
def jsFalsy : Json → Bool
  | .null => true
  | .bool b => !b
  | .num n => n = 0
  | .str s => s = ""
  | .arr _ => false
  | .obj _ => false

/-- Falsiness of an optional property value; an absent property reads as
`undefined`, which is falsy. -/
def jsFalsyOpt : Option Json → Bool
  | none => true
  | some j => jsFalsy j

/-- First-match lookup of a key in an object's field list. -/
def lookupField : List (String × Json) → String → Option Json
  | [], _ => none
  | (k, v) :: rest, key => if k = key then some v else lookupField rest key

/-- Whether an object's field list contains a key. -/
def hasKey (fields : List (String × Json)) (key : String) : Bool :=
  fields.any (fun p => p.1 = key)

/-- JavaScript object assignment `obj[key] = v` on an insertion-ordered
object: replace the value of an existing key in place, otherwise append the
new key at the end. -/
def objSet (fields : List (String × Json)) (key : String) (v : Json) :
    List (String × Json) :=
  if hasKey fields key then
    fields.map (fun p => if p.1 = key then (key, v) else p)
  else
    fields ++ [(key, v)]

/-- Reading property `key` of a JavaScript value (`x[key]` / `x.key`):
throws a `TypeError` on `null`, returns the field (or `undefined`, encoded
`none`) on objects, and `undefined` on primitives and (on-disk) arrays. -/
def jsGetE : Json → String → Except String (Option Json)
  | .null, key => .error ("Cannot read properties of null (reading " ++ key ++ ")")
  | .obj fields, key => .ok (lookupField fields key)
  | _, _ => .ok none

/-- Writing property `key` of a JavaScript value (`x[key] = v`), observed on
the serialized document: updates objects; on arrays the assignment succeeds
but `JSON.stringify` drops non-index properties, so the document is
unchanged; on `null` and (in strict-mode modules) on primitives it throws a
`TypeError`. -/
def jsSetE : Json → String → Json → Except String Json
  | .obj fields, key, v => .ok (.obj (objSet fields key v))
  | .arr elems, _, _ => .ok (.arr elems)
  | .null, key, _ => .error ("Cannot set properties of null (setting " ++ key ++ ")")
  | _, key, _ => .error ("Cannot create property " ++ key ++ " on a primitive")

/-- The generic server descriptor (`types.js`): a JavaScript object whose
`type` field is the string `"stdio"` (local) or `"http"` (remote); the
fields of the other variant read as `undefined` (`none`). -/
structure MCPServerConfig where
  name : String
  type : String
  command : Option String := none
  args : Option (List String) := none
  env : Option (List (String × String)) := none
  url : Option String := none
  headers : Option (List (String × String)) := none

/-- The local descriptor exactly as `index.js` builds it for `type === 'stdio'`:
`{ name, type, command, args, env }`. -/
def mkLocal (name command : String) (args : List String)
    (env : List (String × String)) : MCPServerConfig :=
  { name := name, type := "stdio", command := some command,
    args := some args, env := some env }

/-- The remote descriptor exactly as `index.js` builds it for `type === 'http'`:
`{ name, type, url, headers }`. -/
def mkRemote (name url : String) (headers : List (String × String)) :
    MCPServerConfig :=
  { name := name, type := "http", url := some url, headers := some headers }

/-- Reads `config.command` / `config.url` as a property value. -/
def jvStr : Option String → JsValue
  | none => .undef
  | some s => .val (.str s)

/-- Evaluates `config.args || []`: an absent `args` falls back to the empty array (an
empty array itself is truthy and kept). -/
def jsonArgs : Option (List String) → Json
  | none => .arr []
  | some as => .arr (as.map Json.str)

/-- Evaluates `config.env && Object.keys(config.env).length > 0` (same test for
`headers`). -/
def strMapNonEmpty : Option (List (String × String)) → Bool
  | none => false
  | some m => !m.isEmpty

/-- A string-to-string mapping as a JSON object. -/
def jsonOfPairs (m : List (String × String)) : Json :=
  .obj (m.map (fun p => (p.1, Json.str p.2)))

/-- The `JSON.stringify` view of a built entry object: properties whose value is
`undefined` are dropped. -/
def jsonOfEntry (entry : List (String × JsValue)) : Json :=
  .obj (entry.filterMap (fun p =>
    match p.2 with
    | .undef => none
    | .val j => some (p.1, j)))

/-! ### Per-client descriptor → entry transforms (`transform_config`) -/

/-- Embeds `transform_config` of the Claude Code adapter: local entries are
`{command, args, type}` plus `env` when non-empty; remote entries are
`{url, type}` plus `headers` when non-empty. -/
def claude_code_transform (config : MCPServerConfig) : List (String × JsValue) :=
  if config.type = "stdio" then
    [("command", jvStr config.command),
     ("args", .val (jsonArgs config.args)),
     ("type", .val (.str config.type))] ++
    (if strMapNonEmpty config.env then
      [("env", .val (jsonOfPairs (config.env.getD [])))] else [])
  else
    [("url", jvStr config.url),
     ("type", .val (.str config.type))] ++
    (if strMapNonEmpty config.headers then
      [("headers", .val (jsonOfPairs (config.headers.getD [])))] else [])

/-- Embeds `transform_config` of the VS Code adapter (`vscode.js`): local entries are
`{type:"stdio", command, args}` plus `env` when non-empty; remote entries are
`{type:"http", url}` plus `headers` when non-empty. -/
def vscode_transform (config : MCPServerConfig) : List (String × JsValue) :=
  if config.type = "stdio" then
    [("type", .val (.str "stdio")),
     ("command", jvStr config.command),
     ("args", .val (jsonArgs config.args))] ++
    (if strMapNonEmpty config.env then
      [("env", .val (jsonOfPairs (config.env.getD [])))] else [])
  else
    [("type", .val (.str "http")),
     ("url", jvStr config.url)] ++
    (if strMapNonEmpty config.headers then
      [("headers", .val (jsonOfPairs (config.headers.getD [])))] else [])

/-- Embeds `transform_config` of the Windsurf adapter, exactly as written: the local
branch is guarded by `config.type === 'local'` (the descriptor's actual local
tag is `'stdio'`), otherwise `{serverUrl: config.url}` plus `headers` when
non-empty. -/
def windsurf_transform (config : MCPServerConfig) : List (String × JsValue) :=
  if config.type = "local" then
    [("command", jvStr config.command),
     ("args", .val (jsonArgs config.args))] ++
    (if strMapNonEmpty config.env then
      [("env", .val (jsonOfPairs (config.env.getD [])))] else [])
  else
    [("serverUrl", jvStr config.url)] ++
    (if strMapNonEmpty config.headers then
      [("headers", .val (jsonOfPairs (config.headers.getD [])))] else [])

/-- Embeds `transform_config` of the Codex adapter, exactly as written: the local
branch is guarded by `config.type === 'local'` (the descriptor's actual local
tag is `'stdio'`), otherwise `{url: config.url}` plus `http_headers` when
non-empty. -/
def codex_transform (config : MCPServerConfig) : List (String × JsValue) :=
  if config.type = "local" then
    [("command", jvStr config.command),
     ("args", .val (jsonArgs config.args))] ++
    (if strMapNonEmpty config.env then
      [("env", .val (jsonOfPairs (config.env.getD [])))] else [])
  else
    [("url", jvStr config.url)] ++
    (if strMapNonEmpty config.headers then
      [("http_headers", .val (jsonOfPairs (config.headers.getD [])))] else [])

/-- Embeds `transform_config` of the Continue adapter: entries carry their own
`name` field (Continue's container is a list). -/
def continue_transform (config : MCPServerConfig) : List (String × JsValue) :=
  if config.type = "stdio" then
    [("name", .val (.str config.name)),
     ("type", .val (.str "stdio")),
     ("command", jvStr config.command),
     ("args", .val (jsonArgs config.args))] ++
    (if strMapNonEmpty config.env then
      [("env", .val (jsonOfPairs (config.env.getD [])))] else [])
  else
    [("name", .val (.str config.name)),
     ("type", .val (.str config.type)),
     ("url", jvStr config.url)] ++
    (if strMapNonEmpty config.headers then
      [("headers", .val (jsonOfPairs (config.headers.getD [])))] else [])

/-- Embeds `transform_config` of the Cursor adapter. -/
def cursor_transform (config : MCPServerConfig) : List (String × JsValue) :=
  if config.type = "stdio" then
    [("command", jvStr config.command),
     ("args", .val (jsonArgs config.args))] ++
    (if strMapNonEmpty config.env then
      [("env", .val (jsonOfPairs (config.env.getD [])))] else [])
  else
    [("url", jvStr config.url),
     ("transport", .val (.str "sse"))] ++
    (if strMapNonEmpty config.headers then
      [("headers", .val (jsonOfPairs (config.headers.getD [])))] else [])

/-- Embeds `transform_config` of the Goose adapter. -/
def goose_transform (config : MCPServerConfig) : List (String × JsValue) :=
  if config.type = "stdio" then
    [("name", .val (.str config.name)),
     ("cmd", jvStr config.command),
     ("args", .val (jsonArgs config.args)),
     ("enabled", .val (.bool true)),
     ("type", .val (.str "stdio")),
     ("timeout", .val (.num 300))] ++
    (if strMapNonEmpty config.env then
      [("envs", .val (jsonOfPairs (config.env.getD [])))] else [])
  else
    [("name", .val (.str config.name)),
     ("type", .val (.str "streamable_http")),
     ("url", jvStr config.url),
     ("enabled", .val (.bool true)),
     ("timeout", .val (.num 300))] ++
    (if strMapNonEmpty config.headers then
      [("headers", .val (jsonOfPairs (config.headers.getD [])))] else [])

/-- The `[config.command, ...(config.args || [])]` head element: an `undefined`
command would serialize as `null` inside an array. -/
def commandArrayHead : Option String → Json
  | none => .null
  | some s => .str s

/-- Embeds `transform_config` of the OpenCode adapter: local entries merge command
and args into one `command` array. -/
def opencode_transform (config : MCPServerConfig) : List (String × JsValue) :=
  if config.type = "stdio" then
    [("type", .val (.str "local")),
     ("command", .val (.arr (commandArrayHead config.command
        :: (config.args.getD []).map Json.str))),
     ("enabled", .val (.bool true))] ++
    (if strMapNonEmpty config.env then
      [("environment", .val (jsonOfPairs (config.env.getD [])))] else [])
  else
    [("type", .val (.str "remote")),
     ("url", jvStr config.url),
     ("enabled", .val (.bool true))] ++
    (if strMapNonEmpty config.headers then
      [("headers", .val (jsonOfPairs (config.headers.getD [])))] else [])

/-! ### Format codecs: `read_config` (fail-open load) -/

/-- Outcome of the external parser on the target file: the file is missing,
the parser threw, or the parser returned a value. -/
inductive ParseResult where
  | missing : ParseResult
  | failure : ParseResult
  | success (v : Json) : ParseResult

/-- Embeds `read_config` of the JSON adapters (Claude Code, VS Code, Windsurf,
Cursor): a missing file or a `JSON.parse` exception yields `{}`; a parsed
value is returned as is. -/
def json_read_config : ParseResult → Json
  | .missing => .obj []
  | .failure => .obj []
  | .success v => v

/-- Embeds `read_config` of the YAML adapters (Continue, Goose): a missing file or a
`YAML.parse` exception yields `{}`; additionally `parsed || {}` replaces a
falsy parse result (e.g. `null` for an empty file) by `{}`. -/
def yaml_read_config : ParseResult → Json
  | .missing => .obj []
  | .failure => .obj []
  | .success v => if jsFalsy v then .obj [] else v

/-- Embeds `read_config` of the TOML adapter (Codex): a missing file or a
`TOML.parse` exception yields `{}`. -/
def toml_read_config : ParseResult → Json
  | .missing => .obj []
  | .failure => .obj []
  | .success v => v

/-! ### Mapping-shaped adapters: container bootstrap and upsert -/

/-- The shared document mutation of every mapping-shaped adapter
(`add_to_claude_code`, `add_to_vscode`, `add_to_windsurf`, `add_to_cursor`,
`add_to_codex`, `add_to_goose`):
```
if (!existing_config[containerKey]) existing_config[containerKey] = {};
existing_config[containerKey][name] = entry;
```
observed on the serialized document that is written back. -/
def add_map_doc (containerKey : String) (existing : Json) (name : String)
    (entry : Json) : Except String Json :=
  match jsGetE existing containerKey with
  | .error e => .error e
  | .ok containerOpt =>
    match (if jsFalsyOpt containerOpt then
            jsSetE existing containerKey (.obj [])
          else .ok existing) with
    | .error e => .error e
    | .ok existing1 =>
      match jsGetE existing1 containerKey with
      | .error e => .error e
      | .ok (some (.obj fields)) =>
          jsSetE existing1 containerKey (.obj (objSet fields name entry))
      | .ok (some (.arr _)) => .ok existing1
      | .ok (some .null) =>
          .error ("Cannot set properties of null (setting " ++ name ++ ")")
      | .ok (some _) =>
          .error ("Cannot create property " ++ name ++ " on a primitive")
      | .ok none => .ok existing1

/-- Document mutation of `add_to_claude_code` (container `mcpServers`). -/
def add_to_claude_code_doc (existing : Json) (config : MCPServerConfig) :
    Except String Json :=
  add_map_doc "mcpServers" existing config.name
    (jsonOfEntry (claude_code_transform config))

/-- Document mutation of `add_to_vscode` (container `servers`). -/
def add_to_vscode_doc (existing : Json) (config : MCPServerConfig) :
    Except String Json :=
  add_map_doc "servers" existing config.name
    (jsonOfEntry (vscode_transform config))

/-! ### Adapter results and the catch-all boundary -/

/-- The `AddResult` record of `types.js`. -/
structure AdapterResult where
  success : Bool
  path : String
  error : Option String := none
  deriving Repr, DecidableEq

/-- The `try`/`catch` boundary shared by every `add_to_*`: a completed
pipeline returns `{success:true, path}` together with the written document; a
thrown error is caught and converted into `{success:false, path, error}` with
nothing written. -/
def to_result (path : String) : Except String Json → AdapterResult × Option Json
  | .ok doc => ({ success := true, path := path }, some doc)
  | .error e => ({ success := false, path := path, error := some e }, none)

/-- Runs `add_to_claude_code` from reading the config file (parser outcome `pr`)
to the returned `AddResult` and the written document. -/
def add_to_claude_code_run (pr : ParseResult) (config : MCPServerConfig)
    (path : String) : AdapterResult × Option Json :=
  to_result path (add_to_claude_code_doc (json_read_config pr) config)

/-! ### List-shaped adapter (Continue): find-by-name and in-place replace -/

/-- The `findIndex` callback `(server) => server.name === config.name`:
reading `.name` of `null` throws; on objects it is a strict comparison of the
`name` field against the descriptor's name string; on primitives and arrays
the property reads as `undefined`, which never strictly equals a string. -/
def nameMatches (name : String) (elem : Json) : Except String Bool :=
  match elem with
  | .null => .error "Cannot read properties of null (reading name)"
  | .obj fields =>
      .ok (match lookupField fields "name" with
        | some (.str s) => s = name
        | _ => false)
  | _ => .ok false

/-- Embeds `mcp_servers.findIndex((server) => server.name === config.name)`:
left-to-right scan that stops at the first match (elements after the match
are not inspected). -/
def findNameIdx (elems : List Json) (name : String) :
    Except String (Option Nat) :=
  match elems with
  | [] => .ok none
  | e :: rest =>
    match nameMatches name e with
    | .error err => .error err
    | .ok true => .ok (some 0)
    | .ok false =>
      match findNameIdx rest name with
      | .error err => .error err
      | .ok r => .ok (r.map (· + 1))

/-- The upsert of `add_to_continue`: replace the first element whose `name`
field equals the new name in place, otherwise push the new element at the
end. -/
def continue_upsert (elems : List Json) (name : String) (entry : Json) :
    Except String (List Json) :=
  match findNameIdx elems name with
  | .error err => .error err
  | .ok (some i) => .ok (elems.set i entry)
  | .ok none => .ok (elems ++ [entry])

/-! ### Orchestrator (`main` in `index.js`, client loop) -/

/-- One row of the orchestrator's `results` array:
`{ client: client_name, ...result }`. -/
structure ClientResult where
  client : String
  success : Bool
  path : String
  error : Option String := none
  deriving Repr, DecidableEq

/-- An adapter as the orchestrator sees it: a total function, because every
`add_to_*` catches all of its own errors (`to_result`). -/
def AdapterFn : Type := MCPServerConfig → Bool → AdapterResult

/-- The `clients[client_name]` lookup in the insertion-ordered registry object. -/
def assocLookup (registry : List (String × AdapterFn)) (name : String) :
    Option AdapterFn :=
  match registry with
  | [] => none
  | (k, fn) :: rest => if k = name then some fn else assocLookup rest name

/-- Building an adapter's `AddResult` from its fallible pipeline: this is the
`try`/`catch` at the adapter boundary, as a registry entry. -/
def run_adapter (steps : MCPServerConfig → Bool → Except String Json)
    (path : String) : AdapterFn :=
  fun config is_global => (to_result path (steps config is_global)).1

/-- The client loop of `main` (identical in the interactive and
non-interactive branches): for each selected name in order, look up
`clients[client_name.toLowerCase()]`; if found, invoke it and append
`{client, ...result}`; unknown ids are skipped silently. -/
def main_loop (registry : List (String × AdapterFn))
    (config : MCPServerConfig) (is_global : Bool) :
    List String → List ClientResult
  | [] => []
  | client_name :: rest =>
      match assocLookup registry client_name.toLower with
      | some client_fn =>
          let r := client_fn config is_global
          { client := client_name, success := r.success, path := r.path,
            error := r.error } :: main_loop registry config is_global rest
      | none => main_loop registry config is_global rest

/-! ### Filesystem effect traces (directory creation, read, write) -/

/-- Filesystem side effects an adapter's `apply` attempts, in order.
`ensureDir` is the defensive `if (!fs.existsSync(dir))
fs.mkdirSync(dir, {recursive: true})` step. -/
inductive FsEffect where
  | ensureDir : FsEffect
  | readFile : FsEffect
  | writeFile : FsEffect
  deriving Repr, DecidableEq

/-- Effects of `add_to_claude_code`: the directory check runs only when
`options.is_global` is true (`// Ensure directory exists (only needed for
global config)`). -/
def claude_code_effects (is_global : Bool) : List FsEffect :=
  (if is_global then [.ensureDir] else []) ++ [.readFile, .writeFile]

/-- Effects of `add_to_claude` (Claude Desktop; scope ignored, single
platform-specific global path): unconditional directory check before read
and write. -/
def claude_effects (_is_global : Bool) : List FsEffect :=
  [.ensureDir, .readFile, .writeFile]

/-- Effects of `add_to_vscode`: directory check at both scopes. -/
def vscode_effects (_is_global : Bool) : List FsEffect :=
  [.ensureDir, .readFile, .writeFile]

/-- Effects of `add_to_windsurf` (scope ignored: single global path). -/
def windsurf_effects (_is_global : Bool) : List FsEffect :=
  [.ensureDir, .readFile, .writeFile]

/-- Effects of `add_to_codex` (scope ignored: single global path). -/
def codex_effects (_is_global : Bool) : List FsEffect :=
  [.ensureDir, .readFile, .writeFile]

/-- Effects of `add_to_continue`: directory check at both scopes. -/
def continue_effects (_is_global : Bool) : List FsEffect :=
  [.ensureDir, .readFile, .writeFile]

/-- Effects of `add_to_cursor`: directory check at both scopes. -/
def cursor_effects (_is_global : Bool) : List FsEffect :=
  [.ensureDir, .readFile, .writeFile]

/-- Effects of `add_to_goose` (scope ignored: single global path). -/
def goose_effects (_is_global : Bool) : List FsEffect :=
  [.ensureDir, .readFile, .writeFile]

/-- Effects of `add_to_opencode`: directory check at both scopes. -/
def opencode_effects (_is_global : Bool) : List FsEffect :=
  [.ensureDir, .readFile, .writeFile]

/-! ### Comment-preserving adapter (OpenCode): textual patch pipeline -/

/-- A `jsonc.modify`/`applyEdits` patch operation: set `value` at `path`,
creating missing intermediate containers. -/
inductive PatchOp where
  | set (path : List String) (value : Json) : PatchOp

/-- Total property read used on the parsed OpenCode config
(`existing_config.$schema`, `existing_config.mcp`); `read_config` never
yields `null` there (`jsonc.parse(content) || {}`). -/
def jsGetOpt : Json → String → Option Json
  | .obj fields, key => lookupField fields key
  | _, _ => none

/-- Embeds `read_config` of the OpenCode adapter: returns the raw file content
together with the parsed config. Input: `none` when the file is missing,
`some (content, none)` when reading threw (caught), `some (content, some v)`
when `jsonc.parse` returned `v` (`|| {}` replaces a falsy result). -/
def opencode_read : Option (String × Option Json) → String × Json
  | none => ("{}", .obj [])
  | some (_, none) => ("{}", .obj [])
  | some (content, some v) => (content, if jsFalsy v then .obj [] else v)

/-- The content pipeline of `add_to_opencode`, threading the original file
text through `jsonc.modify`/`jsonc.applyEdits` (abstracted as `applyEdit`):
bootstrap `$schema` if absent, then the `mcp` container if absent, then set
the entry at `['mcp', config.name]`; the written output is the final patched
text. -/
def add_to_opencode_content (applyEdit : String → PatchOp → String)
    (file : Option (String × Option Json)) (config : MCPServerConfig) :
    String :=
  let content := (opencode_read file).1
  let existing_config := (opencode_read file).2
  let new_server := jsonOfEntry (opencode_transform config)
  let c1 :=
    if jsFalsyOpt (jsGetOpt existing_config "$schema") then
      applyEdit content (.set ["$schema"] (.str "https://opencode.ai/config.json"))
    else content
  let c2 :=
    if jsFalsyOpt (jsGetOpt existing_config "mcp") then
      applyEdit c1 (.set ["mcp"] (.obj []))
    else c1
  applyEdit c2 (.set ["mcp", config.name] new_server)

/-- The patch operations `add_to_opencode` issues, in order: the `$schema`
bootstrap only when absent, then the `mcp` container key only when absent,
then the entry at `['mcp', name]`. -/
def opencode_ops (existing_config : Json) (name : String) (entry : Json) :
    List PatchOp :=
  (if jsFalsyOpt (jsGetOpt existing_config "$schema") then
    [.set ["$schema"] (.str "https://opencode.ai/config.json")] else []) ++
  (if jsFalsyOpt (jsGetOpt existing_config "mcp") then
    [.set ["mcp"] (.obj [])] else []) ++
  [.set ["mcp", name] entry]

/-! ### Concrete example values -/

/-- The spec's running example descriptor
`Local{name:"fs", command:"npx",
args:["-y","@modelcontextprotocol/server-filesystem","/tmp"], env:{}}`,
built the way `index.js` builds a `stdio` descriptor. -/
def fsLocal : MCPServerConfig :=
  mkLocal "fs" "npx" ["-y", "@modelcontextprotocol/server-filesystem", "/tmp"] []

/-- A pre-existing unrelated element of Continue's `mcpServers` list. -/
def other_server : Json := .obj [("name", .str "other-server")]

/-- The Claude Code document written by one application of the example
descriptor over the initial document `{"other": "keep"}`. -/
def demo_claude_doc : Json :=
  .obj [("other", .str "keep"),
        ("mcpServers", .obj [("fs", jsonOfEntry (claude_code_transform fsLocal))])]

/-- The Continue list after one application of the example descriptor over
`[other_server]`. -/
def demo_continue_list : List Json :=
  [other_server, jsonOfEntry (continue_transform fsLocal)]

/-- A two-client registry whose first adapter fails and whose second
succeeds. -/
def demo_registry : List (String × AdapterFn) :=
  [("codex", fun _ _ =>
      { success := false, path := "/root/.codex/config.toml",
        error := some "EACCES: permission denied" }),
   ("vscode", fun _ _ =>
      { success := true, path := "/root/.config/Code/User/mcp.json" })]

/-- An adapter pipeline whose steps throw. -/
def demo_fail_steps : MCPServerConfig → Bool → Except String Json :=
  fun _ _ => .error "EACCES: permission denied"

/-- Pre-existing Continue list element named `alpha`. -/
def alpha_server : Json := .obj [("name", .str "alpha")]

/-- Pre-existing Continue list element named `beta`. -/
def beta_server : Json :=
  .obj [("name", .str "beta"), ("type", .str "stdio"), ("command", .str "old-cmd")]

/-- Pre-existing Continue list element named `gamma`. -/
def gamma_server : Json := .obj [("name", .str "gamma")]

/-- An updated entry for the server named `beta`. -/
def beta_update : Json :=
  .obj [("name", .str "beta"), ("type", .str "stdio"), ("command", .str "npx")]

/-! ### Helper lemmas about the mapping upsert `objSet` -/

theorem hasKey_nil (key : String) : hasKey [] key = false := rfl

theorem hasKey_cons (k : String) (w : Json) (rest : List (String × Json))
    (key : String) :
    hasKey ((k, w) :: rest) key = (decide (k = key) || hasKey rest key) := by
  simp [hasKey, List.any_cons]

theorem replaceMap_cons (k : String) (w : Json) (rest : List (String × Json))
    (key : String) (v : Json) :
    ((k, w) :: rest).map (fun p => if p.1 = key then (key, v) else p)
      = (if k = key then (key, v) else (k, w))
          :: rest.map (fun p => if p.1 = key then (key, v) else p) := by
  simp

theorem lookupField_cons (k : String) (w : Json) (rest : List (String × Json))
    (key : String) :
    lookupField ((k, w) :: rest) key
      = if k = key then some w else lookupField rest key := rfl

theorem lookupField_replaceMap_self (fields : List (String × Json))
    (key : String) (v : Json) (h : hasKey fields key = true) :
    lookupField (fields.map (fun p => if p.1 = key then (key, v) else p)) key
      = some v := by
  induction fields with
  | nil => simp [hasKey] at h
  | cons p rest ih =>
    obtain ⟨k, w⟩ := p
    rw [replaceMap_cons]
    by_cases hk : k = key
    · subst hk
      rw [if_pos rfl, lookupField_cons, if_pos rfl]
    · rw [if_neg hk, lookupField_cons, if_neg hk]
      rw [hasKey_cons] at h
      simp only [decide_eq_true_eq (p := k = key), Bool.or_eq_true,
        decide_eq_true_eq] at h
      exact ih (h.resolve_left hk)

theorem lookupField_replaceMap_other (fields : List (String × Json))
    (key : String) (v : Json) (k2 : String) (h : k2 ≠ key) :
    lookupField (fields.map (fun p => if p.1 = key then (key, v) else p)) k2
      = lookupField fields k2 := by
  induction fields with
  | nil => rfl
  | cons p rest ih =>
    obtain ⟨k, w⟩ := p
    rw [replaceMap_cons, lookupField_cons]
    by_cases hk : k = key
    · subst hk
      rw [if_pos rfl, lookupField_cons, if_neg h.symm, if_neg h.symm]
      exact ih
    · rw [if_neg hk, lookupField_cons]
      by_cases hk2 : k = k2
      · rw [if_pos hk2, if_pos hk2]
      · rw [if_neg hk2, if_neg hk2]
        exact ih

theorem replaceMap_eq_self (fields : List (String × Json)) (key : String)
    (v : Json) (h : hasKey fields key = false) :
    fields.map (fun p => if p.1 = key then (key, v) else p) = fields := by
  induction fields with
  | nil => rfl
  | cons p rest ih =>
    obtain ⟨k, w⟩ := p
    rw [hasKey_cons] at h
    simp only [Bool.or_eq_false_iff, decide_eq_false_iff_not] at h
    rw [replaceMap_cons, if_neg h.1, ih h.2]

theorem keys_replaceMap (fields : List (String × Json)) (key : String)
    (v : Json) :
    (fields.map (fun p => if p.1 = key then (key, v) else p)).map Prod.fst
      = fields.map Prod.fst := by
  induction fields with
  | nil => rfl
  | cons p rest ih =>
    obtain ⟨k, w⟩ := p
    rw [replaceMap_cons]
    by_cases hk : k = key
    · subst hk
      rw [if_pos rfl]
      simpa using ih
    · rw [if_neg hk]
      simpa using ih

theorem hasKey_replaceMap (fields : List (String × Json)) (key : String)
    (v : Json) :
    hasKey (fields.map (fun p => if p.1 = key then (key, v) else p)) key
      = hasKey fields key := by
  induction fields with
  | nil => rfl
  | cons p rest ih =>
    obtain ⟨k, w⟩ := p
    rw [replaceMap_cons]
    by_cases hk : k = key
    · subst hk
      rw [if_pos rfl, hasKey_cons, hasKey_cons]
      simp
    · rw [if_neg hk, hasKey_cons, hasKey_cons, ih]

theorem hasKey_append_single (fields : List (String × Json)) (key : String)
    (v : Json) : hasKey (fields ++ [(key, v)]) key = true := by
  induction fields with
  | nil => simp [hasKey_cons, hasKey_nil]
  | cons p rest ih =>
    obtain ⟨k, w⟩ := p
    rw [List.cons_append, hasKey_cons, ih, Bool.or_true]

theorem lookupField_append_of_not_hasKey (fields rest : List (String × Json))
    (key : String) (h : hasKey fields key = false) :
    lookupField (fields ++ rest) key = lookupField rest key := by
  induction fields with
  | nil => rfl
  | cons p tl ih =>
    obtain ⟨k, w⟩ := p
    rw [hasKey_cons] at h
    simp only [Bool.or_eq_false_iff, decide_eq_false_iff_not] at h
    rw [List.cons_append, lookupField_cons, if_neg h.1, ih h.2]

theorem replaceMap_replaceMap (fields : List (String × Json)) (key : String)
    (v : Json) :
    (fields.map (fun p => if p.1 = key then (key, v) else p)).map
        (fun p => if p.1 = key then (key, v) else p)
      = fields.map (fun p => if p.1 = key then (key, v) else p) := by
  induction fields with
  | nil => rfl
  | cons p rest ih =>
    obtain ⟨k, w⟩ := p
    rw [replaceMap_cons]
    by_cases hk : k = key
    · subst hk
      rw [if_pos rfl, replaceMap_cons, if_pos rfl, ih]
    · rw [if_neg hk, replaceMap_cons, if_neg hk, ih]

/-- JavaScript object assignment is idempotent on the ordered object. -/
theorem objSet_objSet (fields : List (String × Json)) (key : String)
    (v : Json) : objSet (objSet fields key v) key v = objSet fields key v := by
  unfold objSet
  by_cases h : hasKey fields key = true
  · simp only [h, if_true, hasKey_replaceMap, replaceMap_replaceMap]
  · simp only [Bool.not_eq_true] at h
    simp only [h, Bool.false_eq_true, if_false, hasKey_append_single, if_true,
      List.map_append]
    rw [replaceMap_eq_self _ _ _ h]
    simp

/-- After `objSet`, looking up the written key yields the new value. -/
theorem lookupField_objSet_self (fields : List (String × Json)) (key : String)
    (v : Json) : lookupField (objSet fields key v) key = some v := by
  unfold objSet
  by_cases h : hasKey fields key = true
  · simp only [h, if_true]
    exact lookupField_replaceMap_self fields key v h
  · simp only [Bool.not_eq_true] at h
    simp only [h, Bool.false_eq_true, if_false]
    rw [lookupField_append_of_not_hasKey _ _ _ h]
    simp [lookupField]

theorem lookupField_append_single_other (fields : List (String × Json))
    (key : String) (v : Json) (k2 : String) (h : k2 ≠ key) :
    lookupField (fields ++ [(key, v)]) k2 = lookupField fields k2 := by
  induction fields with
  | nil =>
    rw [List.nil_append, lookupField_cons, if_neg h.symm]
  | cons p tl ih =>
    obtain ⟨k, w⟩ := p
    rw [List.cons_append, lookupField_cons, lookupField_cons, ih]

/-- The upsert `objSet` does not touch the value of any other key. -/
theorem lookupField_objSet_other (fields : List (String × Json))
    (key : String) (v : Json) (k2 : String) (h : k2 ≠ key) :
    lookupField (objSet fields key v) k2 = lookupField fields k2 := by
  unfold objSet
  by_cases hk : hasKey fields key = true
  · simp only [hk, if_true]
    exact lookupField_replaceMap_other fields key v k2 h
  · simp only [Bool.not_eq_true] at hk
    simp only [hk, Bool.false_eq_true, if_false]
    exact lookupField_append_single_other fields key v k2 h

/-! ### Helper lemmas about the document-level mapping upsert `add_map_doc` -/

/-- Evaluation of `add_map_doc` when the container key is absent or falsy:
the container is bootstrapped to `{}` and the entry inserted into it. -/
theorem add_map_doc_falsy (ck : String) (fields0 : List (String × Json))
    (name : String) (entry : Json)
    (hf : jsFalsyOpt (lookupField fields0 ck) = true) :
    add_map_doc ck (.obj fields0) name entry
      = .ok (.obj (objSet (objSet fields0 ck (.obj [])) ck
          (.obj (objSet [] name entry)))) := by
  unfold add_map_doc
  simp only [jsGetE, hf, if_true, jsSetE, lookupField_objSet_self]

/-- Evaluation of `add_map_doc` when the container key holds an object. -/
theorem add_map_doc_obj (ck : String) (fields0 fs : List (String × Json))
    (name : String) (entry : Json)
    (hl : lookupField fields0 ck = some (.obj fs)) :
    add_map_doc ck (.obj fields0) name entry
      = .ok (.obj (objSet fields0 ck (.obj (objSet fs name entry)))) := by
  unfold add_map_doc
  simp only [jsGetE, hl, jsFalsyOpt, jsFalsy, Bool.false_eq_true, if_false,
    jsSetE]

/-- Evaluation of `add_map_doc` when the container key holds an array: the
string-keyed property assignment is invisible in the serialized document. -/
theorem add_map_doc_arr (ck : String) (fields0 : List (String × Json))
    (es : List Json) (name : String) (entry : Json)
    (hl : lookupField fields0 ck = some (.arr es)) :
    add_map_doc ck (.obj fields0) name entry = .ok (.obj fields0) := by
  unfold add_map_doc
  simp only [jsGetE, hl, jsFalsyOpt, jsFalsy, Bool.false_eq_true, if_false]

/-- Re-applying `add_map_doc` to a document it has just written is the
identity. -/
theorem add_map_doc_written (ck : String)
    (fieldsX fs0 : List (String × Json)) (name : String) (entry : Json) :
    add_map_doc ck
        (.obj (objSet fieldsX ck (.obj (objSet fs0 name entry)))) name entry
      = .ok (.obj (objSet fieldsX ck (.obj (objSet fs0 name entry)))) := by
  rw [add_map_doc_obj ck _ (objSet fs0 name entry) name entry
    (lookupField_objSet_self fieldsX ck _)]
  rw [objSet_objSet fs0 name entry, objSet_objSet fieldsX ck _]

/-- Idempotence of the document-level mapping upsert: if one application of
`add_map_doc` to an object-rooted document succeeds with document `d`, a
second application maps `d` to itself. -/
theorem add_map_doc_idem (ck : String) (fields0 : List (String × Json))
    (name : String) (entry : Json) (d : Json)
    (h : add_map_doc ck (.obj fields0) name entry = .ok d) :
    add_map_doc ck d name entry = .ok d := by
  have falsy_case :
      jsFalsyOpt (lookupField fields0 ck) = true →
        add_map_doc ck d name entry = .ok d := by
    intro hf
    rw [add_map_doc_falsy ck fields0 name entry hf] at h
    injection h with hd
    subst hd
    exact add_map_doc_written ck (objSet fields0 ck (.obj [])) [] name entry
  have prim_error :
      ∀ hl : lookupField fields0 ck = lookupField fields0 ck,
        jsFalsyOpt (lookupField fields0 ck) = false →
        (∀ fs, lookupField fields0 ck ≠ some (.obj fs)) →
        (∀ es, lookupField fields0 ck ≠ some (.arr es)) →
        (lookupField fields0 ck ≠ some .null) →
        add_map_doc ck d name entry = .ok d := by
    intro _ hf hobj harr hnull
    exfalso
    rcases hlook : lookupField fields0 ck with _ | j
    · rw [hlook] at hf
      simp [jsFalsyOpt] at hf
    · rcases j with _ | b | n | s | es | fs
      · exact hnull hlook
      · unfold add_map_doc at h
        rw [hlook] at hf
        simp only [jsGetE, hlook, hf, Bool.false_eq_true, if_false] at h
        exact Except.noConfusion h
      · unfold add_map_doc at h
        rw [hlook] at hf
        simp only [jsGetE, hlook, hf, Bool.false_eq_true, if_false] at h
        exact Except.noConfusion h
      · unfold add_map_doc at h
        rw [hlook] at hf
        simp only [jsGetE, hlook, hf, Bool.false_eq_true, if_false] at h
        exact Except.noConfusion h
      · exact harr es hlook
      · exact hobj fs hlook
  rcases hlook : lookupField fields0 ck with _ | j
  · exact falsy_case (by simp [jsFalsyOpt, hlook])
  · rcases j with _ | b | n | s | es | fs
    · exact falsy_case (by simp [jsFalsyOpt, jsFalsy, hlook])
    · cases b
      · exact falsy_case (by simp [jsFalsyOpt, jsFalsy, hlook])
      · exact prim_error rfl (by simp [jsFalsyOpt, jsFalsy, hlook])
          (by simp [hlook]) (by simp [hlook]) (by simp [hlook])
    · by_cases hn : n = 0
      · subst hn
        exact falsy_case (by simp [jsFalsyOpt, jsFalsy, hlook])
      · exact prim_error rfl (by simp [jsFalsyOpt, jsFalsy, hlook, hn])
          (by simp [hlook]) (by simp [hlook]) (by simp [hlook])
    · by_cases hs : s = ""
      · subst hs
        exact falsy_case (by simp [jsFalsyOpt, jsFalsy, hlook])
      · exact prim_error rfl (by simp [jsFalsyOpt, jsFalsy, hlook, hs])
          (by simp [hlook]) (by simp [hlook]) (by simp [hlook])
    · rw [add_map_doc_arr ck fields0 es name entry hlook] at h
      injection h with hd
      subst hd
      exact add_map_doc_arr ck fields0 es name entry hlook
    · rw [add_map_doc_obj ck fields0 fs name entry hlook] at h
      injection h with hd
      subst hd
      exact add_map_doc_written ck fields0 fs name entry

/-! ### Helper lemmas about the list upsert of the Continue adapter -/

theorem set_append_len {α : Type} (l : List α) (a b : α) :
    (l ++ [a]).set l.length b = l ++ [b] := by
  induction l with
  | nil => rfl
  | cons x tl ih => simp [List.set, ih]

/-- If no element matched, the appended entry (whose `name` field matches) is
found at the old length. -/
theorem findNameIdx_none_append (elems : List Json) (name : String)
    (entry : Json) (hm : nameMatches name entry = .ok true)
    (h : findNameIdx elems name = .ok none) :
    findNameIdx (elems ++ [entry]) name = .ok (some elems.length) := by
  induction elems with
  | nil =>
    simp only [List.nil_append, List.length_nil]
    unfold findNameIdx
    rw [hm]
  | cons e rest ih =>
    unfold findNameIdx at h
    rcases he : nameMatches name e with err | b
    · rw [he] at h
      exact Except.noConfusion h
    · cases b
      · rw [he] at h
        rcases hr : findNameIdx rest name with err | r
        · rw [hr] at h
          exact Except.noConfusion h
        · rw [hr] at h
          injection h with h1
          cases r with
          | none =>
            rw [List.cons_append]
            unfold findNameIdx
            rw [he, ih hr]
            simp
          | some j => exact absurd h1 (by simp)
      · rw [he] at h
        injection h with h1
        exact Option.noConfusion h1

/-- Replacing the matched element at its index by an entry whose `name` field
matches leaves the first match at the same index. -/
theorem findNameIdx_some_set (elems : List Json) (name : String)
    (entry : Json) (i : Nat) (hm : nameMatches name entry = .ok true)
    (h : findNameIdx elems name = .ok (some i)) :
    findNameIdx (elems.set i entry) name = .ok (some i) := by
  induction elems generalizing i with
  | nil =>
    unfold findNameIdx at h
    injection h with h1
    exact Option.noConfusion h1
  | cons e rest ih =>
    unfold findNameIdx at h
    rcases he : nameMatches name e with err | b
    · rw [he] at h
      exact Except.noConfusion h
    · cases b
      · rw [he] at h
        rcases hr : findNameIdx rest name with err | r
        · rw [hr] at h
          exact Except.noConfusion h
        · rw [hr] at h
          injection h with h1
          cases r with
          | none => exact Option.noConfusion h1
          | some j =>
            rw [Option.map_some'] at h1
            injection h1 with h2
            subst h2
            show findNameIdx ((e :: rest).set (j + 1) entry) name
              = .ok (some (j + 1))
            rw [List.set_cons_succ]
            unfold findNameIdx
            rw [he, ih j hr]
            simp
      · rw [he] at h
        injection h with h1
        injection h1 with h2
        subst h2
        show findNameIdx ((e :: rest).set 0 entry) name = .ok (some 0)
        rw [List.set_cons_zero]
        unfold findNameIdx
        rw [hm]

/-- Idempotence of the Continue list upsert, provided the new entry carries
its own name (as every `continue_transform` output does). -/
theorem continue_upsert_idem (elems : List Json) (name : String)
    (entry : Json) (hm : nameMatches name entry = .ok true)
    (l' : List Json) (h : continue_upsert elems name entry = .ok l') :
    continue_upsert l' name entry = .ok l' := by
  unfold continue_upsert at h ⊢
  rcases hfind : findNameIdx elems name with err | r
  · rw [hfind] at h
    exact Except.noConfusion h
  · rw [hfind] at h
    cases r with
    | some i =>
      injection h with h1
      subst h1
      rw [findNameIdx_some_set elems name entry i hm hfind]
      simp [List.set_set]
    | none =>
      injection h with h1
      subst h1
      rw [findNameIdx_none_append elems name entry hm hfind]
      simp [set_append_len]

/-! ### Helper lemmas about the orchestrator loop -/

/-- One loop iteration whose client name is found in the registry. -/
theorem main_loop_cons_found (registry : List (String × AdapterFn))
    (config : MCPServerConfig) (is_global : Bool) (n : String)
    (rest : List String) (fn : AdapterFn)
    (hl : assocLookup registry n.toLower = some fn) :
    main_loop registry config is_global (n :: rest)
      = { client := n, success := (fn config is_global).success,
          path := (fn config is_global).path,
          error := (fn config is_global).error }
          :: main_loop registry config is_global rest := by
  conv_lhs => unfold main_loop
  rw [hl]

/-- One loop iteration whose client name is not in the registry: skipped
silently. -/
theorem main_loop_cons_skip (registry : List (String × AdapterFn))
    (config : MCPServerConfig) (is_global : Bool) (n : String)
    (rest : List String)
    (hl : assocLookup registry n.toLower = none) :
    main_loop registry config is_global (n :: rest)
      = main_loop registry config is_global rest := by
  conv_lhs => unfold main_loop
  rw [hl]

/-- The loop processes a prefix of selected client names and then the rest;
in particular no outcome in the prefix can stop the suffix from being
processed. -/
theorem main_loop_append (registry : List (String × AdapterFn))
    (config : MCPServerConfig) (is_global : Bool) (sel1 sel2 : List String) :
    main_loop registry config is_global (sel1 ++ sel2)
      = main_loop registry config is_global sel1
          ++ main_loop registry config is_global sel2 := by
  induction sel1 with
  | nil => rfl
  | cons n rest ih =>
    rw [List.cons_append]
    rcases hl : assocLookup registry n.toLower with _ | fn
    · rw [main_loop_cons_skip registry config is_global n (rest ++ sel2) hl,
        main_loop_cons_skip registry config is_global n rest hl, ih]
    · rw [main_loop_cons_found registry config is_global n (rest ++ sel2) fn hl,
        main_loop_cons_found registry config is_global n rest fn hl, ih,
        List.cons_append]

/-- The result rows are exactly the selected names found in the registry, in
the selected order. -/
theorem main_loop_clients (registry : List (String × AdapterFn))
    (config : MCPServerConfig) (is_global : Bool) (sel : List String) :
    (main_loop registry config is_global sel).map ClientResult.client
      = sel.filter (fun n => (assocLookup registry n.toLower).isSome) := by
  induction sel with
  | nil => rfl
  | cons n rest ih =>
    rcases hl : assocLookup registry n.toLower with _ | fn
    · rw [main_loop_cons_skip registry config is_global n rest hl,
        List.filter_cons]
      simp only [hl, Option.isSome_none, Bool.false_eq_true, if_false]
      exact ih
    · rw [main_loop_cons_found registry config is_global n rest fn hl,
        List.filter_cons]
      simp only [hl, Option.isSome_some, if_true, List.map_cons]
      rw [ih]

/-! ### Claim theorems -/

/-- C1: the claim fails on the code. For the Local descriptor
`fsLocal` (generic type tag `"stdio"`), the Windsurf and Codex
`transform_config` both compare `config.type` against `'local'` — a value
the descriptor union never carries — so both take the remote branch: the
produced entries consist of the remote-only field `serverUrl` (resp. `url`)
holding `undefined`, with no `command`/`args`, and serialize to `{}`.  The
claimed local entry shape `{command, args (, env)}` is never produced for a
Local descriptor. -/
theorem windsurf_codex_stdio_takes_remote_branch :
    windsurf_transform fsLocal = [("serverUrl", JsValue.undef)]
    ∧ codex_transform fsLocal = [("url", JsValue.undef)]
    ∧ jsonOfEntry (windsurf_transform fsLocal) = .obj []
    ∧ jsonOfEntry (codex_transform fsLocal) = .obj [] :=
  ⟨rfl, rfl, rfl, rfl⟩

/-- C3: each codec's `read_config` returns the empty baseline document `{}`
both when the file does not exist and when the parser throws on its content,
and the two outcomes are identical, for the JSON, YAML and TOML codecs
("never raises" holds because the embedded loaders are total functions,
mirroring the catch-all `try`/`catch`). -/
theorem read_config_fail_open :
    (json_read_config .missing = .obj [] ∧ json_read_config .failure = .obj []
      ∧ json_read_config .failure = json_read_config .missing)
    ∧ (yaml_read_config .missing = .obj [] ∧ yaml_read_config .failure = .obj []
      ∧ yaml_read_config .failure = yaml_read_config .missing)
    ∧ (toml_read_config .missing = .obj [] ∧ toml_read_config .failure = .obj []
      ∧ toml_read_config .failure = toml_read_config .missing) :=
  ⟨⟨rfl, rfl, rfl⟩, ⟨rfl, rfl, rfl⟩, ⟨rfl, rfl, rfl⟩⟩

/-- C8: applying the example Local descriptor to the VS Code adapter over an
empty initial file produces the document whose container satisfies
`servers.fs = {type:"stdio", command:"npx",
args:["-y","@modelcontextprotocol/server-filesystem","/tmp"]}`, with no
`env` key since `env` is empty. -/
theorem vscode_example_fs :
    add_to_vscode_doc (json_read_config ParseResult.missing) fsLocal
      = .ok (.obj [("servers", .obj [("fs", .obj
          [("type", .str "stdio"), ("command", .str "npx"),
           ("args", .arr [.str "-y",
             .str "@modelcontextprotocol/server-filesystem",
             .str "/tmp"])])])])
    ∧ jsonOfEntry (vscode_transform fsLocal)
      = .obj [("type", .str "stdio"), ("command", .str "npx"),
              ("args", .arr [.str "-y",
                .str "@modelcontextprotocol/server-filesystem",
                .str "/tmp"])] :=
  ⟨rfl, rfl⟩

/-- C9 counterexample: the claim is false as stated — the Claude Code
adapter guards its directory check with `if (options.is_global)`, so at
project scope (`is_global = false`) no directory-existence check is
attempted at all. -/
theorem claude_code_project_scope_no_ensure_dir :
    FsEffect.ensureDir ∉ claude_code_effects false := by decide

/-- C9 amended: every adapter in the source other than Claude Code —
Claude Desktop, VS Code, Windsurf, Codex, Continue, Cursor, Goose and
OpenCode — attempts the directory-existence check (recursive create if
absent) before writing at both scopes; the Claude Code adapter attempts it
exactly when the scope is global (its project-scope path `.mcp.json` lies
directly in the current working directory). -/
theorem ensure_dir_amended (is_global : Bool) :
    (FsEffect.ensureDir ∈ claude_effects is_global
      ∧ FsEffect.ensureDir ∈ vscode_effects is_global
      ∧ FsEffect.ensureDir ∈ windsurf_effects is_global
      ∧ FsEffect.ensureDir ∈ codex_effects is_global
      ∧ FsEffect.ensureDir ∈ continue_effects is_global
      ∧ FsEffect.ensureDir ∈ cursor_effects is_global
      ∧ FsEffect.ensureDir ∈ goose_effects is_global
      ∧ FsEffect.ensureDir ∈ opencode_effects is_global)
    ∧ (FsEffect.ensureDir ∈ claude_code_effects is_global ↔ is_global = true) := by
  cases is_global <;> exact (by decide)

/-- C10: content that parses as JSON to a non-object — the literal `null` —
is returned by `read_config` as is (not the empty baseline), and the
subsequent container access `existing_config.mcpServers` inside the adapter
throws, so `apply` returns `{success:false, path, error}` and writes
nothing: the fail-open recovery covers only missing or unparseable files. -/
theorem parseable_non_object_not_recovered :
    json_read_config (ParseResult.success Json.null) = Json.null
    ∧ json_read_config (ParseResult.success Json.null)
        ≠ json_read_config ParseResult.missing
    ∧ (add_to_claude_code_run (ParseResult.success Json.null) fsLocal
        "/root/.claude.json").1
      = { success := false, path := "/root/.claude.json",
          error := some "Cannot read properties of null (reading mcpServers)" }
    ∧ (add_to_claude_code_run (ParseResult.success Json.null) fsLocal
        "/root/.claude.json").2 = none := by
  refine ⟨rfl, ?_, rfl, rfl⟩
  intro h
  exact Json.noConfusion (show Json.null = Json.obj [] from h)

/-- C2: the upsert is idempotent.  Mapping case: JavaScript object
assignment applied twice equals one application, both at container level
(`objSet`) and at document level — a second run of the Claude Code document
mutation over the document it just wrote returns that document unchanged.
List case: a second application of the Continue upsert finds the element it
wrote (whose `name` field carries the server name) and replaces it in place
with itself, so the list is unchanged and no duplicate is appended. -/
theorem upsert_idempotent (fields : List (String × Json)) (key : String)
    (v : Json) (fields0 : List (String × Json)) (config : MCPServerConfig)
    (d : Json) (hdoc : add_to_claude_code_doc (.obj fields0) config = .ok d)
    (elems : List Json) (name : String) (entry : Json)
    (hname : nameMatches name entry = .ok true)
    (l' : List Json) (hlist : continue_upsert elems name entry = .ok l') :
    objSet (objSet fields key v) key v = objSet fields key v
    ∧ add_to_claude_code_doc d config = .ok d
    ∧ continue_upsert l' name entry = .ok l' :=
  ⟨objSet_objSet fields key v,
   add_map_doc_idem "mcpServers" fields0 config.name
     (jsonOfEntry (claude_code_transform config)) d hdoc,
   continue_upsert_idem elems name entry hname l' hlist⟩

/-- C2 witness: idempotence at the example descriptor over concrete
non-empty containers. -/
theorem upsert_idempotent_witness :
    objSet (objSet [("fs", Json.str "old")] "fs" (Json.str "new")) "fs"
        (Json.str "new")
      = objSet [("fs", Json.str "old")] "fs" (Json.str "new")
    ∧ add_to_claude_code_doc demo_claude_doc fsLocal = .ok demo_claude_doc
    ∧ continue_upsert demo_continue_list "fs"
        (jsonOfEntry (continue_transform fsLocal)) = .ok demo_continue_list :=
  upsert_idempotent [("fs", Json.str "old")] "fs" (Json.str "new")
    [("other", Json.str "keep")] fsLocal demo_claude_doc rfl
    [other_server] "fs" (jsonOfEntry (continue_transform fsLocal)) rfl
    demo_continue_list rfl

/-- C4: the orchestrator loop processes the selected client ids strictly in
the given order — a prefix is processed before, and independently of, the
rest, so no failure short-circuits the remaining clients; the result list
has exactly one row per selected id found in the registry, in input order;
and an error thrown inside an adapter's pipeline is converted at the
adapter's `try`/`catch` boundary into `{success:false, path, error}` rather
than escaping. -/
theorem orchestrator_order_and_isolation
    (registry : List (String × AdapterFn)) (config : MCPServerConfig)
    (is_global : Bool) (sel1 sel2 : List String) :
    main_loop registry config is_global (sel1 ++ sel2)
      = main_loop registry config is_global sel1
          ++ main_loop registry config is_global sel2
    ∧ (main_loop registry config is_global sel1).map ClientResult.client
      = sel1.filter (fun n => (assocLookup registry n.toLower).isSome)
    ∧ (∀ (steps : MCPServerConfig → Bool → Except String Json)
        (path e : String), steps config is_global = .error e →
          run_adapter steps path config is_global
            = { success := false, path := path, error := some e }) := by
  refine ⟨main_loop_append registry config is_global sel1 sel2,
    main_loop_clients registry config is_global sel1, ?_⟩
  intro steps path e he
  unfold run_adapter
  rw [he]
  rfl

/-- C4 witness: a failing first client, an unknown id, and a succeeding
last client over the two-adapter registry. -/
theorem orchestrator_order_and_isolation_witness :
    main_loop demo_registry fsLocal true (["Codex", "unknown"] ++ ["vscode"])
      = main_loop demo_registry fsLocal true ["Codex", "unknown"]
          ++ main_loop demo_registry fsLocal true ["vscode"]
    ∧ (main_loop demo_registry fsLocal true ["Codex", "unknown"]).map
        ClientResult.client
      = ["Codex", "unknown"].filter
          (fun n => (assocLookup demo_registry n.toLower).isSome)
    ∧ run_adapter demo_fail_steps "/root/.continue/config.yaml" fsLocal true
      = { success := false, path := "/root/.continue/config.yaml",
          error := some "EACCES: permission denied" } := by
  have h := orchestrator_order_and_isolation demo_registry fsLocal true
    ["Codex", "unknown"] ["vscode"]
  exact ⟨h.1, h.2.1,
    h.2.2 demo_fail_steps "/root/.continue/config.yaml"
      "EACCES: permission denied" rfl⟩

/-- C5: frame conditions of the mapping upsert.  When the container already
holds key `key`, `objSet` sets its value, leaves the value of every other
key unchanged, and preserves the key sequence (hence the relative order) of
the pre-existing keys; a genuinely new key is appended at the end. -/
theorem mapping_upsert_frame (fields : List (String × Json)) (key : String)
    (v : Json) (hpresent : hasKey fields key = true)
    (k2 : String) (hk2 : k2 ≠ key)
    (fields2 : List (String × Json)) (habsent : hasKey fields2 key = false) :
    lookupField (objSet fields key v) key = some v
    ∧ lookupField (objSet fields key v) k2 = lookupField fields k2
    ∧ (objSet fields key v).map Prod.fst = fields.map Prod.fst
    ∧ objSet fields2 key v = fields2 ++ [(key, v)] := by
  refine ⟨lookupField_objSet_self fields key v,
    lookupField_objSet_other fields key v k2 hk2, ?_, ?_⟩
  · unfold objSet
    rw [if_pos hpresent]
    exact keys_replaceMap fields key v
  · unfold objSet
    rw [habsent]
    rfl

/-- C5 witness: overwriting the middle key of a three-key container and
appending to a container without the key. -/
theorem mapping_upsert_frame_witness :
    lookupField (objSet [("alpha", Json.num 1), ("fs", Json.str "old"),
        ("beta", Json.num 2)] "fs" (Json.str "new")) "fs"
      = some (Json.str "new")
    ∧ lookupField (objSet [("alpha", Json.num 1), ("fs", Json.str "old"),
        ("beta", Json.num 2)] "fs" (Json.str "new")) "alpha"
      = lookupField [("alpha", Json.num 1), ("fs", Json.str "old"),
          ("beta", Json.num 2)] "alpha"
    ∧ (objSet [("alpha", Json.num 1), ("fs", Json.str "old"),
        ("beta", Json.num 2)] "fs" (Json.str "new")).map Prod.fst
      = [("alpha", Json.num 1), ("fs", Json.str "old"),
          ("beta", Json.num 2)].map Prod.fst
    ∧ objSet [("alpha", Json.num 1)] "fs" (Json.str "new")
      = [("alpha", Json.num 1)] ++ [("fs", Json.str "new")] :=
  mapping_upsert_frame
    [("alpha", Json.num 1), ("fs", Json.str "old"), ("beta", Json.num 2)]
    "fs" (Json.str "new") rfl "alpha" (by decide)
    [("alpha", Json.num 1)] rfl

/-- C6: positional stability of the Continue list upsert.  Over `[A, B, C]`
with an update matching `B` the result is `[A, B', C]` (replaced in place);
the new element is appended at the end exactly when no element's `name`
field matches; and on replacement the list length is unchanged. -/
theorem continue_positional_stability (A B C entry : Json) (name : String)
    (hA : nameMatches name A = .ok false)
    (hB : nameMatches name B = .ok true) :
    continue_upsert [A, B, C] name entry = .ok [A, entry, C]
    ∧ (∀ elems : List Json, findNameIdx elems name = .ok none →
        continue_upsert elems name entry = .ok (elems ++ [entry]))
    ∧ (∀ (elems : List Json) (i : Nat),
        findNameIdx elems name = .ok (some i) →
        ∃ l', continue_upsert elems name entry = .ok l'
          ∧ l'.length = elems.length) := by
  refine ⟨?_, ?_, ?_⟩
  · have hfind : findNameIdx [A, B, C] name = .ok (some 1) := by
      unfold findNameIdx
      rw [hA]
      unfold findNameIdx
      rw [hB]
      rfl
    unfold continue_upsert
    rw [hfind]
    rfl
  · intro elems hnone
    unfold continue_upsert
    rw [hnone]
  · intro elems i hsome
    refine ⟨elems.set i entry, ?_, List.length_set elems i entry⟩
    unfold continue_upsert
    rw [hsome]

/-- C6 witness: updating `beta` in `[alpha, beta, gamma]`, appending to a
list without a match, and length preservation at the concrete index. -/
theorem continue_positional_stability_witness :
    continue_upsert [alpha_server, beta_server, gamma_server] "beta"
        beta_update = .ok [alpha_server, beta_update, gamma_server]
    ∧ continue_upsert [alpha_server] "beta" beta_update
      = .ok ([alpha_server] ++ [beta_update])
    ∧ (∃ l', continue_upsert [alpha_server, beta_server, gamma_server] "beta"
          beta_update = .ok l'
        ∧ l'.length = [alpha_server, beta_server, gamma_server].length) := by
  have h := continue_positional_stability alpha_server beta_server
    gamma_server beta_update "beta" rfl rfl
  exact ⟨h.1, h.2.1 [alpha_server] rfl,
    h.2.2 [alpha_server, beta_server, gamma_server] 1 rfl⟩

/-- C7: the OpenCode edit is the original file text threaded through the
patch operations in issue order — `$schema` first and only if absent, then
the `mcp` container key only if absent, then the entry at `[mcp, name]`;
for every patch applier, the written output equals the fold of those
operations over the original content (a textual patch of the input, never a
re-serialization of the parsed tree). -/
theorem opencode_patch_pipeline (applyEdit : String → PatchOp → String)
    (file : Option (String × Option Json)) (config : MCPServerConfig) :
    add_to_opencode_content applyEdit file config
      = (opencode_ops (opencode_read file).2 config.name
          (jsonOfEntry (opencode_transform config))).foldl applyEdit
            (opencode_read file).1 := by
  unfold add_to_opencode_content opencode_ops
  by_cases h1 : jsFalsyOpt (jsGetOpt (opencode_read file).2 "$schema") = true
  · by_cases h2 : jsFalsyOpt (jsGetOpt (opencode_read file).2 "mcp") = true
    · simp only [h1, h2, if_true, List.append_assoc, List.cons_append,
        List.nil_append, List.foldl_cons, List.foldl_nil]
    · simp only [Bool.not_eq_true] at h2
      simp only [h1, h2, if_true, Bool.false_eq_true, if_false,
        List.append_assoc, List.cons_append, List.nil_append,
        List.foldl_cons, List.foldl_nil]
  · simp only [Bool.not_eq_true] at h1
    by_cases h2 : jsFalsyOpt (jsGetOpt (opencode_read file).2 "mcp") = true
    · simp only [h1, h2, if_true, Bool.false_eq_true, if_false,
        List.append_assoc, List.cons_append, List.nil_append,
        List.foldl_cons, List.foldl_nil]
    · simp only [Bool.not_eq_true] at h2
      simp only [h1, h2, Bool.false_eq_true, if_false, List.nil_append,
        List.foldl_cons, List.foldl_nil]

end McpAdd
